import Mathlib

/-!
Shallow embedding of the branch/pull-request synchronization engine of
`conda_forge_tick/git_utils.py`.

Python dicts holding PR JSON are modelled as ordered association lists
(`Record`), JSON values as the inductive `JVal`.  Network and subprocess
effects are made explicit: each stateful function takes the responses of
the outside world as parameters and returns, next to its Python return
value, the list of outward calls (`Effect`) it performed.  Raising an
exception is modelled by `Except.error`.
-/

/-- A JSON value as stored in a PR json blob. -/
inductive JVal where
  | null : JVal
  | b : Bool → JVal
  | n : Int → JVal
  | s : String → JVal
  | arr : List JVal → JVal
  | obj : List (String × JVal) → JVal
deriving Repr

/-- A Python dict with string keys, in insertion order. -/
abbrev Record := List (String × JVal)

/-- Python `d.get(k)` on a dict: the value of the first matching key. -/
def rfind (r : Record) (k : String) : Option JVal :=
  (r.find? (fun p => p.1 == k)).map (fun p => p.2)

/-- Python `d[k] = v` on a dict: overwrite in place if the key exists,
otherwise append (dicts keep insertion order). -/
def rset (r : Record) (k : String) (v : JVal) : Record :=
  if r.any (fun p => p.1 == k) then
    r.map (fun p => if p.1 == k then (k, v) else p)
  else
    r ++ [(k, v)]

/-- Boolean substring test on lists, used for Python `k in s`
when `s` is a string. -/
def infixOf (needle : List Char) : List Char → Bool
  | [] => needle.isEmpty
  | c :: t => needle.isPrefixOf (c :: t) || infixOf needle t

/-- Python `k in v` for a string key `k`.  Dicts test key membership,
strings test substrings, lists test element equality; other values raise
`TypeError` (modelled as `Except.error`). -/
def containsKey (v : JVal) (k : String) : Except Unit Bool :=
  match v with
  | .obj fs => .ok (fs.any (fun p => p.1 == k))
  | .s t => .ok (infixOf k.data t.data)
  | .arr vs => .ok (vs.any (fun x => match x with | .s t => t == k | _ => false))
  | _ => .error ()

/-- Python `v[k]` for a string key `k`: dict lookup; a missing key raises
`KeyError` and any non-dict raises `TypeError`. -/
def getItem (v : JVal) (k : String) : Except Unit JVal :=
  match v with
  | .obj fs =>
    match fs.find? (fun p => p.1 == k) with
    | some p => .ok p.2
    | none => .error ()
  | _ => .error ()

/-- Python nested item assignment `r[k1]...[kn] = v`: every prefix is read
(raising on a missing key), and the final holder must be a dict. -/
def setIn : JVal → List String → JVal → Except Unit JVal
  | .obj fs, [k], v => .ok (.obj (rset fs k v))
  | .obj fs, k :: k2 :: rest, v =>
    match getItem (.obj fs) k with
    | .error e => .error e
    | .ok cur =>
      match setIn cur (k2 :: rest) v with
      | .error e => .error e
      | .ok newInner => .ok (.obj (rset fs k newInner))
  | _, _, _ => .error ()

/-- Nested assignment on a `Record`, wrapping `setIn`. -/
def rsetPath (r : Record) (path : List String) (v : JVal) : Except Unit Record :=
  match setIn (.obj r) path v with
  | .error e => .error e
  | .ok (.obj fs) => .ok fs
  | .ok _ => .error ()

mutual
/-- The tree of keys to keep: `leaf` is a `None` value in the Python
`PR_KEYS_TO_KEEP` dict, `node` a nested dict of keys (a `KeyForest`). -/
inductive KeyTree where
  | leaf : KeyTree
  | node : KeyForest → KeyTree
/-- An ordered list of keys, each with its `KeyTree` of nested keys. -/
inductive KeyForest where
  | nil : KeyForest
  | cons : String → KeyTree → KeyForest → KeyForest
end

/-- Build a `KeyForest` from an ordered key/tree list. -/
def KeyForest.ofList : List (String × KeyTree) → KeyForest
  | [] => .nil
  | (k, t) :: rest => .cons k t (KeyForest.ofList rest)

/-- The keys kept from github PR json blobs (`PR_KEYS_TO_KEEP`). -/
def PR_KEYS_TO_KEEP : KeyForest :=
  KeyForest.ofList
    [("ETag", .leaf),
     ("Last-Modified", .leaf),
     ("id", .leaf),
     ("number", .leaf),
     ("html_url", .leaf),
     ("created_at", .leaf),
     ("updated_at", .leaf),
     ("merged_at", .leaf),
     ("closed_at", .leaf),
     ("state", .leaf),
     ("mergeable_state", .leaf),
     ("labels", .leaf),
     ("merged", .leaf),
     ("draft", .leaf),
     ("mergeable", .leaf),
     ("head", .node (KeyForest.ofList [("ref", .leaf)])),
     ("base", .node (KeyForest.ofList [("repo", .node (KeyForest.ofList [("name", .leaf)]))]))]

/-- The inner `_munge_dict` of `trim_pr_json_keys`: walk the key forest in
order; a present leaf key copies the source value, a present node key
creates a fresh dict and recurses into the source value. -/
def mungeForest : KeyForest → JVal → Except Unit (List (String × JVal))
  | .nil, _ => .ok []
  | .cons k .leaf rest, src =>
    match containsKey src k with
    | .error e => .error e
    | .ok false => mungeForest rest src
    | .ok true =>
      match getItem src k with
      | .error e => .error e
      | .ok v =>
        match mungeForest rest src with
        | .error e => .error e
        | .ok d => .ok ((k, v) :: d)
  | .cons k (.node sub) rest, src =>
    match containsKey src k with
    | .error e => .error e
    | .ok false => mungeForest rest src
    | .ok true =>
      match getItem src k with
      | .error e => .error e
      | .ok v =>
        match mungeForest sub v with
        | .error e => .error e
        | .ok inner =>
          match mungeForest rest src with
          | .error e => .error e
          | .ok d => .ok ((k, JVal.obj inner) :: d)

/-- `trim_pr_json_keys(pr_json, src_pr_json)`: clear `pr_json` and copy the
`PR_KEYS_TO_KEEP` subset from the source (the record itself when no source
is given, mirroring the Python default `src_pr_json=None`). -/
def trim_pr_json_keys (pr_json : Record) (src_pr_json : Option Record) : Except Unit Record :=
  mungeForest PR_KEYS_TO_KEEP (JVal.obj (src_pr_json.getD pr_json))

/-- Whether a forest has a key at its top level. -/
def forestHasKey : KeyForest → String → Bool
  | .nil, _ => false
  | .cons k2 _ rest, k => (k2 == k) || forestHasKey rest k

/-- Whether an output entry is licensed by the key forest: its key names a
forest entry, and at a node entry the value is a dict licensed by the
subforest. -/
def keyOk : KeyForest → String × JVal → Bool
  | .nil, _ => false
  | .cons k .leaf rest, p => (p.1 == k) || keyOk rest p
  | .cons k (.node sub) rest, p =>
    ((p.1 == k) && (match p.2 with
                    | .obj inner => inner.all (fun q => keyOk sub q)
                    | _ => false)) || keyOk rest p

/-- The key names of a forest are pairwise distinct at every level. -/
def ksNodup : KeyForest → Bool
  | .nil => true
  | .cons k .leaf rest => !(forestHasKey rest k) && ksNodup rest
  | .cons k (.node sub) rest => !(forestHasKey rest k) && ksNodup sub && ksNodup rest

theorem ksNodup_PR_KEYS_TO_KEEP : ksNodup PR_KEYS_TO_KEEP = true := by decide

theorem keyOk_cons (k : String) (t : KeyTree) (rest : KeyForest)
    (p : String × JVal) (h : keyOk rest p = true) : keyOk (.cons k t rest) p = true := by
  cases t <;> simp [keyOk, h]

/-- Every entry of a munge output is licensed by the key forest. -/
theorem mungeForest_keyOk : ∀ (f : KeyForest) (src : JVal) (d : List (String × JVal)),
    mungeForest f src = .ok d → d.all (fun p => keyOk f p) = true
  | .nil, src, d, h => by
    simp only [mungeForest] at h
    cases h
    rfl
  | .cons k .leaf rest, src, d, h => by
    simp only [mungeForest] at h
    cases hc : containsKey src k with
    | error e => simp only [hc] at h; exact Except.noConfusion h
    | ok cb =>
      simp only [hc] at h
      cases cb with
      | false =>
        have hd := mungeForest_keyOk rest src d h
        simp only [List.all_eq_true] at hd ⊢
        exact fun p hp => keyOk_cons _ _ _ _ (hd p hp)
      | true =>
        cases hg : getItem src k with
        | error e => simp only [hg] at h; exact Except.noConfusion h
        | ok v =>
          simp only [hg] at h
          cases hrest : mungeForest rest src with
          | error e => simp only [hrest] at h; exact Except.noConfusion h
          | ok drest =>
            simp only [hrest, Except.ok.injEq] at h
            subst h
            have hd := mungeForest_keyOk rest src drest hrest
            simp only [List.all_eq_true] at hd ⊢
            intro p hp
            rcases List.mem_cons.mp hp with rfl | hp2
            · simp [keyOk]
            · exact keyOk_cons _ _ _ _ (hd p hp2)
  | .cons k (.node sub) rest, src, d, h => by
    simp only [mungeForest] at h
    cases hc : containsKey src k with
    | error e => simp only [hc] at h; exact Except.noConfusion h
    | ok cb =>
      simp only [hc] at h
      cases cb with
      | false =>
        have hd := mungeForest_keyOk rest src d h
        simp only [List.all_eq_true] at hd ⊢
        exact fun p hp => keyOk_cons _ _ _ _ (hd p hp)
      | true =>
        cases hg : getItem src k with
        | error e => simp only [hg] at h; exact Except.noConfusion h
        | ok v =>
          simp only [hg] at h
          cases hsub : mungeForest sub v with
          | error e => simp only [hsub] at h; exact Except.noConfusion h
          | ok inner =>
            simp only [hsub] at h
            cases hrest : mungeForest rest src with
            | error e => simp only [hrest] at h; exact Except.noConfusion h
            | ok drest =>
              simp only [hrest, Except.ok.injEq] at h
              subst h
              have hin := mungeForest_keyOk sub v inner hsub
              have hd := mungeForest_keyOk rest src drest hrest
              simp only [List.all_eq_true] at hd ⊢
              intro p hp
              rcases List.mem_cons.mp hp with rfl | hp2
              · simp [keyOk, hin]
              · exact keyOk_cons _ _ _ _ (hd p hp2)

/-- A licensed entry has its key at the top level of the forest. -/
theorem keyOk_hasKey : ∀ (f : KeyForest) (p : String × JVal),
    keyOk f p = true → forestHasKey f p.1 = true
  | .nil, p, h => by simp [keyOk] at h
  | .cons k .leaf rest, p, h => by
    simp only [keyOk, Bool.or_eq_true] at h
    rcases h with h1 | h2
    · have := eq_of_beq h1
      simp [forestHasKey, this]
    · simp [forestHasKey, keyOk_hasKey rest p h2]
  | .cons k (.node sub) rest, p, h => by
    simp only [keyOk, Bool.or_eq_true, Bool.and_eq_true] at h
    rcases h with ⟨h1, _⟩ | h2
    · have := eq_of_beq h1
      simp [forestHasKey, this]
    · simp [forestHasKey, keyOk_hasKey rest p h2]

/-- Every key of a munge output is a top-level key of the forest. -/
theorem mungeForest_keys (f : KeyForest) (src : JVal) (d : List (String × JVal))
    (h : mungeForest f src = .ok d) : d.all (fun p => forestHasKey f p.1) = true := by
  have hd := mungeForest_keyOk f src d h
  simp only [List.all_eq_true] at hd ⊢
  exact fun p hp => keyOk_hasKey f p (hd p hp)

/-- Prepending an entry whose key the forest does not mention leaves the
munge output unchanged. -/
theorem mungeForest_skip : ∀ (f : KeyForest) (k : String) (v : JVal)
    (d : List (String × JVal)), forestHasKey f k = false →
    mungeForest f (JVal.obj ((k, v) :: d)) = mungeForest f (JVal.obj d)
  | .nil, k, v, d, hk => rfl
  | .cons k2 .leaf rest, k, v, d, hk => by
    simp only [forestHasKey, Bool.or_eq_false_iff] at hk
    obtain ⟨hk1, hk2⟩ := hk
    have hkk : (k == k2) = false := by
      cases h2 : k == k2
      · rfl
      · exact absurd (eq_of_beq h2).symm (fun he => by simp [he] at hk1)
    simp only [mungeForest, containsKey, getItem, List.any_cons, List.find?, hkk,
      Bool.false_or, mungeForest_skip rest k v d hk2]
  | .cons k2 (.node sub) rest, k, v, d, hk => by
    simp only [forestHasKey, Bool.or_eq_false_iff] at hk
    obtain ⟨hk1, hk2⟩ := hk
    have hkk : (k == k2) = false := by
      cases h2 : k == k2
      · rfl
      · exact absurd (eq_of_beq h2).symm (fun he => by simp [he] at hk1)
    simp only [mungeForest, containsKey, getItem, List.any_cons, List.find?, hkk,
      Bool.false_or, mungeForest_skip rest k v d hk2]

/-- Trimming is idempotent: munging a munge output (with pairwise distinct
keys in the forest) reproduces it exactly. -/
theorem mungeForest_idem : ∀ (f : KeyForest) (src : JVal) (d : List (String × JVal)),
    ksNodup f = true → mungeForest f src = .ok d → mungeForest f (JVal.obj d) = .ok d
  | .nil, src, d, hn, h => by
    simp only [mungeForest] at h
    cases h
    rfl
  | .cons k .leaf rest, src, d, hn, h => by
    simp only [ksNodup, Bool.and_eq_true, Bool.not_eq_eq_eq_not, Bool.not_true] at hn
    obtain ⟨hk, hnr⟩ := hn
    simp only [mungeForest] at h ⊢
    cases hc : containsKey src k with
    | error e => simp only [hc] at h; exact Except.noConfusion h
    | ok cb =>
      simp only [hc] at h
      cases cb with
      | false =>
        have hkeys := mungeForest_keys rest src d h
        have hnotin : (d.any fun p => p.1 == k) = false := by
          cases hany : d.any fun p => p.1 == k
          · rfl
          · exfalso
            obtain ⟨p, hp, hpk⟩ := List.any_eq_true.mp hany
            have := List.all_eq_true.mp hkeys p hp
            rw [eq_of_beq hpk] at this
            simp [hk] at this
        simp only [containsKey, hnotin]
        exact mungeForest_idem rest src d hnr h
      | true =>
        cases hg : getItem src k with
        | error e => simp only [hg] at h; exact Except.noConfusion h
        | ok v =>
          simp only [hg] at h
          cases hrest : mungeForest rest src with
          | error e => simp only [hrest] at h; exact Except.noConfusion h
          | ok drest =>
            simp only [hrest, Except.ok.injEq] at h
            subst h
            simp only [containsKey, List.any_cons, beq_self_eq_true, Bool.true_or,
              getItem, List.find?, mungeForest_skip rest k v drest hk,
              mungeForest_idem rest src drest hnr hrest]
  | .cons k (.node sub) rest, src, d, hn, h => by
    simp only [ksNodup, Bool.and_eq_true, Bool.not_eq_eq_eq_not, Bool.not_true] at hn
    obtain ⟨⟨hk, hns⟩, hnr⟩ := hn
    simp only [mungeForest] at h ⊢
    cases hc : containsKey src k with
    | error e => simp only [hc] at h; exact Except.noConfusion h
    | ok cb =>
      simp only [hc] at h
      cases cb with
      | false =>
        have hkeys := mungeForest_keys rest src d h
        have hnotin : (d.any fun p => p.1 == k) = false := by
          cases hany : d.any fun p => p.1 == k
          · rfl
          · exfalso
            obtain ⟨p, hp, hpk⟩ := List.any_eq_true.mp hany
            have := List.all_eq_true.mp hkeys p hp
            rw [eq_of_beq hpk] at this
            simp [hk] at this
        simp only [containsKey, hnotin]
        exact mungeForest_idem rest src d hnr h
      | true =>
        cases hg : getItem src k with
        | error e => simp only [hg] at h; exact Except.noConfusion h
        | ok v =>
          simp only [hg] at h
          cases hsub : mungeForest sub v with
          | error e => simp only [hsub] at h; exact Except.noConfusion h
          | ok inner =>
            simp only [hsub] at h
            cases hrest : mungeForest rest src with
            | error e => simp only [hrest] at h; exact Except.noConfusion h
            | ok drest =>
              simp only [hrest, Except.ok.injEq] at h
              subst h
              simp only [containsKey, List.any_cons, beq_self_eq_true, Bool.true_or,
                getItem, List.find?, mungeForest_skip rest k (JVal.obj inner) drest hk,
                mungeForest_idem sub v inner hns hsub,
                mungeForest_idem rest src drest hnr hrest]

/-- Python truthiness of a JSON value (`bool(v)`). -/
def jTruthy : JVal → Bool
  | .null => false
  | .b v => v
  | .n v => v != 0
  | .s v => v != ""
  | .arr vs => !vs.isEmpty
  | .obj fs => !fs.isEmpty

/-- Python `v == lit` for a string literal: equal only to the equal string. -/
def jEqStr (v : JVal) (lit : String) : Bool :=
  match v with
  | .s t => t == lit
  | _ => false

/-- The response the GitHub pulls endpoint gives to the one conditional GET
of `lazy_update_pr_json`: status code, JSON body, and caching headers. -/
structure GhResp where
  status : Nat
  body : Record
  etag : String
  lastMod : String

/-- One outward call of the engine: network requests against the GitHub
API and git pushes.  Reads and mutations are distinguished by
`Effect.isMutating`. -/
inductive Effect where
  | httpGetPr : JVal → JVal → Bool → Effect
  | fetchPrObj : Effect
  | createComment : Effect
  | closePr : Effect
  | deleteBranchPush : JVal → Effect
  | listCommits : Effect
  | labelLookup : Effect
  | createLabel : Effect
  | addLabel : String → Effect
  | ghLogin : Effect
  | remoteAdd : Effect
  | gitPush : Effect
  | createPull : Effect
deriving Repr

/-- Whether an effect mutates remote state (everything except the read
calls). -/
def Effect.isMutating : Effect → Bool
  | .httpGetPr _ _ _ => false
  | .fetchPrObj => false
  | .listCommits => false
  | .labelLookup => false
  | .ghLogin => false
  | _ => true

/-- Whether an effect is an add-label call against the remote resource. -/
def Effect.isAddLabel : Effect → Bool
  | .addLabel _ => true
  | _ => false

/-- The pure part of `lazy_update_pr_json`: legacy-shape repair (backfill a
missing `base.repo.name` from `html_url`, strip a stray `/pull/` suffix),
then the conditional GET modelled by `resp`, then the trim.  Returns the
new record together with the repo name, PR number and conditional flag of
the GET that was issued. -/
def lazy_update_pr_json_core (resp : GhResp) (pr0 : Record) (force : Bool) :
    Except Unit (Record × JVal × JVal × Bool) := do
  let condReq := !force && pr0.any (fun p => p.1 == "ETag")
  let base ← getItem (.obj pr0) "base"
  let hasRepo ← containsKey base "repo"
  let needBackfill ←
    if hasRepo then do
      let repo ← getItem base "repo"
      let hasName ← containsKey repo "name"
      pure (!hasName)
    else pure true
  let pr1 ←
    if needBackfill then do
      let hu ← getItem (.obj pr0) "html_url"
      let rn ←
        match hu with
        | .s u =>
          match (u.splitOn "/conda-forge/").get? 1 with
          | some piece => Except.ok piece
          | none => Except.error ()
        | _ => Except.error ()
      let rn2 ←
        if rn.isEmpty then Except.error ()
        else Except.ok (if rn.endsWith "/" then rn.dropRight 1 else rn)
      let prHalf ←
        if hasRepo then Except.ok pr0
        else rsetPath pr0 ["base", "repo"] (JVal.obj [])
      rsetPath prHalf ["base", "repo", "name"] (JVal.s rn2)
    else pure pr0
  let nameVal ← do
    let b ← getItem (.obj pr1) "base"
    let r ← getItem b "repo"
    getItem r "name"
  let hasPull ← containsKey nameVal "/pull/"
  let pr2 ←
    if hasPull then
      match nameVal with
      | .s t => rsetPath pr1 ["base", "repo", "name"] (JVal.s ((t.splitOn "/pull/").headD ""))
      | _ => Except.error ()
    else pure pr1
  let rname ← do
    let b ← getItem (.obj pr2) "base"
    let r ← getItem b "repo"
    getItem r "name"
  let num ← getItem (.obj pr2) "number"
  if resp.status == 200 then do
    let t ← trim_pr_json_keys pr2 (some resp.body)
    let t2 := rset (rset t "ETag" (JVal.s resp.etag)) "Last-Modified" (JVal.s resp.lastMod)
    pure (t2, rname, num, condReq)
  else do
    let t ← trim_pr_json_keys pr2 none
    pure (t, rname, num, condReq)

/-- `lazy_update_pr_json(pr_json, force)`: repair, one conditional GET
(the only network effect), and trim; on a 200 the trimmed body replaces
the record and `ETag`/`Last-Modified` are recorded, otherwise the record
is defensively re-trimmed in place. -/
def lazy_update_pr_json (resp : GhResp) (pr0 : Record) (force : Bool) :
    Except Unit (Record × List Effect) :=
  match lazy_update_pr_json_core resp pr0 force with
  | .error e => .error e
  | .ok (t, rname, num, condReq) => .ok (t, [Effect.httpGetPr rname num condReq])

theorem lazy_update_single_get (resp : GhResp) (pr0 : Record) (force : Bool)
    (q : Record) (e : List Effect) (h : lazy_update_pr_json resp pr0 force = .ok (q, e)) :
    (e.all fun x => !x.isMutating) = true := by
  unfold lazy_update_pr_json at h
  cases hcore : lazy_update_pr_json_core resp pr0 force with
  | error err => simp only [hcore] at h; exact Except.noConfusion h
  | ok quad =>
    obtain ⟨t, rname, num, condReq⟩ := quad
    simp only [hcore, Except.ok.injEq, Prod.mk.injEq] at h
    obtain ⟨-, he⟩ := h
    subst he
    rfl

/-- `delete_branch(pr_json, dry_run)`: read `head.ref`; outside dry-run,
read `base.repo.name`, push-delete the ref and overwrite `head.ref` with
the sentinel so deletion is never retried. -/
def delete_branch (pr : Record) (dry_run : Bool) : Except Unit (Record × List Effect) :=
  match getItem (.obj pr) "head" with
  | .error e => .error e
  | .ok headVal =>
    match getItem headVal "ref" with
    | .error e => .error e
    | .ok ref =>
      if dry_run then .ok (pr, [])
      else
        match getItem (.obj pr) "base" with
        | .error e => .error e
        | .ok baseVal =>
          match getItem baseVal "repo" with
          | .error e => .error e
          | .ok repoVal =>
            match getItem repoVal "name" with
            | .error e => .error e
            | .ok _ =>
              match rsetPath pr ["head", "ref"] (JVal.s "this_is_not_a_branch") with
              | .error e => .error e
              | .ok pr2 => .ok (pr2, [Effect.deleteBranchPush ref])

/-- `refresh_pr(pr_json, dry_run)`: a closed record is returned as `none`
untouched; otherwise the refresh runs on a deep copy of the record, a
merge-then-closed transition deletes the branch, and the refreshed dict is
returned.  The second component of the result is the value that the
record object of the caller holds after the call. -/
def refresh_pr (resp : GhResp) (pr0 : Record) (dry_run : Bool) :
    Except Unit (Option Record × Record × List Effect) :=
  match getItem (.obj pr0) "state" with
  | .error e => .error e
  | .ok st =>
    if !(jEqStr st "closed") then
      if dry_run then .ok (some pr0, pr0, [])
      else
        match lazy_update_pr_json resp pr0 false with
        | .error e => .error e
        | .ok (pr1, e1) =>
          match getItem (.obj pr1) "state" with
          | .error e => .error e
          | .ok st1 =>
            if jEqStr st1 "closed" && jTruthy ((rfind pr1 "merged_at").getD (JVal.b false)) then
              match delete_branch pr1 dry_run with
              | .error e => .error e
              | .ok (pr2, e2) => .ok (some pr2, pr0, e1 ++ e2)
            else .ok (some pr1, pr0, e1)
    else .ok (none, pr0, [])

/-- `get_pr_obj_from_pr_json(pr_json, gh)`: read `base.repo.name` and
`number` and fetch the pull-request object from the API. -/
def get_pr_obj_from_pr_json (pr : Record) : Except Unit (JVal × JVal × List Effect) :=
  match getItem (.obj pr) "base" with
  | .error e => .error e
  | .ok baseVal =>
    match getItem baseVal "repo" with
    | .error e => .error e
    | .ok repoVal =>
      match getItem repoVal "name" with
      | .error e => .error e
      | .ok nameVal =>
        match getItem (.obj pr) "number" with
        | .error e => .error e
        | .ok num => .ok (nameVal, num, [Effect.fetchPrObj])

/-- The per-label names of `pr_json.get("labels", [])`, each read through
`lab["name"]`; non-list label containers behave as Python iteration does
(empty ones yield nothing, non-empty ones raise on `lab["name"]`). -/
def labelNames (pr : Record) : Except Unit (List JVal) :=
  match (rfind pr "labels").getD (JVal.arr []) with
  | .arr ls => ls.mapM (fun l => getItem l "name")
  | .s t => if t.isEmpty then .ok [] else .error ()
  | .obj fs => if fs.isEmpty then .ok [] else .error ()
  | _ => .error ()

/-- The guard of the stale-rerun rule: the record is not closed and one of
its labels is named `bot-rerun` (the label list is only read when the
state test passes, as the Python `and` short-circuits). -/
def stale_cond (pr : Record) : Except Unit Bool :=
  match getItem (.obj pr) "state" with
  | .error e => .error e
  | .ok st =>
    if jEqStr st "closed" then .ok false
    else
      match labelNames pr with
      | .error e => .error e
      | .ok ns => .ok (ns.any (fun x => jEqStr x "bot-rerun"))

/-- `close_out_labels(pr_json, dry_run)`: refresh an open `bot-rerun` PR
once; if it is still open and labeled, comment, close, delete the branch,
refresh again and return the final record, else return `none`. -/
def close_out_labels (r1 r2 : GhResp) (pr0 : Record) (dry_run : Bool) :
    Except Unit (Option Record × List Effect) :=
  match stale_cond pr0 with
  | .error e => .error e
  | .ok c0 =>
    match (if c0 then
             (if dry_run then .ok (pr0, ([] : List Effect))
              else lazy_update_pr_json r1 pr0 false)
           else .ok (pr0, ([] : List Effect))) with
    | .error e => .error e
    | .ok (pr1, e1) =>
      match stale_cond pr1 with
      | .error e => .error e
      | .ok c1 =>
        if c1 then
          if dry_run then .ok (some pr1, e1)
          else
            match get_pr_obj_from_pr_json pr1 with
            | .error e => .error e
            | .ok (_, _, eObj) =>
              match delete_branch pr1 dry_run with
              | .error e => .error e
              | .ok (pr2, e2) =>
                match lazy_update_pr_json r2 pr2 false with
                | .error e => .error e
                | .ok (pr3, e3) =>
                  .ok (some pr3, e1 ++ eObj ++ [Effect.createComment, Effect.closePr] ++ e2 ++ e3)
        else .ok (none, e1)

/-- The bot author identities (`CF_BOT_NAMES`). -/
def CF_BOT_NAMES : List String := ["regro-cf-autotick-bot", "conda-forge-linter"]

/-- The rerun label dict (`BOT_RERUN_LABEL`). -/
def BOT_RERUN_LABEL : Record := [("name", JVal.s "bot-rerun")]

/-- The `all(...)` author check of the dirty-conflict rule: every commit
author name is in `CF_BOT_NAMES`. -/
def all_bot_authors (authors : List String) : Bool :=
  authors.all (fun a => CF_BOT_NAMES.contains a)

/-- The first guard of the dirty-conflict rule: not closed and
`mergeable_state == "dirty"` (the second key is only read when the state
test passes). -/
def dirty_cond1 (pr : Record) : Except Unit Bool :=
  match getItem (.obj pr) "state" with
  | .error e => .error e
  | .ok st =>
    if jEqStr st "closed" then .ok false
    else
      match getItem (.obj pr) "mergeable_state" with
      | .error e => .error e
      | .ok ms => .ok (jEqStr ms "dirty")

/-- The second guard of the dirty-conflict rule: the first guard plus a
falsy `draft` flag (`pr_json.get("draft", False)`). -/
def dirty_cond2 (pr : Record) : Except Unit Bool :=
  match dirty_cond1 pr with
  | .error e => .error e
  | .ok cnd => .ok (cnd && !(jTruthy ((rfind pr "draft").getD (JVal.b false))))

/-- `close_out_dirty_prs(pr_json, dry_run)`: refresh an open dirty PR
once; if still open, dirty and non-draft, fetch its commits, and when
every commit author is a bot, comment, close, delete the branch, refresh,
and append the rerun label to the returned record only; the refreshed
record is returned otherwise, and `none` when the guard fails. -/
def close_out_dirty_prs (r1 r2 : GhResp) (commitAuthors : List String) (pr0 : Record)
    (dry_run : Bool) : Except Unit (Option Record × List Effect) :=
  match dirty_cond1 pr0 with
  | .error e => .error e
  | .ok c0 =>
    match (if c0 then
             (if dry_run then .ok (pr0, ([] : List Effect))
              else lazy_update_pr_json r1 pr0 false)
           else .ok (pr0, ([] : List Effect))) with
    | .error e => .error e
    | .ok (pr1, e1) =>
      match dirty_cond2 pr1 with
      | .error e => .error e
      | .ok c1 =>
        if c1 then
          if dry_run then .ok (some pr1, e1)
          else
            match get_pr_obj_from_pr_json pr1 with
            | .error e => .error e
            | .ok (_, _, eObj) =>
              if all_bot_authors commitAuthors then
                match delete_branch pr1 dry_run with
                | .error e => .error e
                | .ok (pr2, e2) =>
                  match lazy_update_pr_json r2 pr2 false with
                  | .error e => .error e
                  | .ok (pr3, e3) =>
                    match getItem (.obj pr3) "labels" with
                    | .error e => .error e
                    | .ok (JVal.arr ls) =>
                      .ok (some (rset pr3 "labels" (JVal.arr (ls ++ [JVal.obj BOT_RERUN_LABEL]))),
                           e1 ++ eObj ++ [Effect.listCommits, Effect.createComment,
                             Effect.closePr] ++ e2 ++ e3)
                    | .ok _ => .error ()
              else
                .ok (some pr1, e1 ++ eObj ++ [Effect.listCommits])
        else .ok (none, e1)

/-- `ensure_label_exists(repo, label_dict, dry_run)`: look the label up and
create it when absent (the dry-run flag only logs; the lookup and create
still run). -/
def ensure_label_exists (labelExists : Bool) : List Effect :=
  if labelExists then [Effect.labelLookup] else [Effect.labelLookup, Effect.createLabel]

/-- `label_pr(repo, pr_json, label_dict, dry_run)`: ensure the label
exists, then outside dry-run add it to the PR via the issues API. -/
def label_pr (labelExists : Bool) (pr : Record) (labelName : String) (dry_run : Bool) :
    Except Unit (List Effect) :=
  if dry_run then .ok (ensure_label_exists labelExists)
  else
    match getItem (.obj pr) "number" with
    | .error e => .error e
    | .ok _ => .ok (ensure_label_exists labelExists ++ [Effect.addLabel labelName])

/-- Outcome of the clone/push/PR subprocess and API calls of the world
around `push_repo`. -/
structure PushWorld where
  remoteAddExit : Int
  pushExit : Int
  createdPr : Option Record

/-- The Python return value of `push_repo`: `False` or the trimmed PR
dict. -/
inductive PushResult where
  | failed : PushResult
  | made : Record → PushResult

/-- `push_repo(...)`: in dry-run mode every mutation is replaced by a log
line and the function returns `False`; otherwise remote-add, push and
PR creation run in order, each non-zero exit or `None` PR aborting with
`False`, and on success the created PR dict is trimmed and returned. -/
def push_repo (w : PushWorld) (dry_run : Bool) : Except Unit (PushResult × List Effect) :=
  if dry_run then .ok (.failed, [Effect.ghLogin])
  else
    if w.remoteAddExit != 0 then .ok (.failed, [Effect.ghLogin, Effect.remoteAdd])
    else if w.pushExit != 0 then .ok (.failed, [Effect.ghLogin, Effect.remoteAdd, Effect.gitPush])
    else
      match w.createdPr with
      | none => .ok (.failed, [Effect.ghLogin, Effect.remoteAdd, Effect.gitPush, Effect.createPull])
      | some prd =>
        match trim_pr_json_keys prd none with
        | .error e => .error e
        | .ok t => .ok (.made t, [Effect.ghLogin, Effect.remoteAdd, Effect.gitPush, Effect.createPull])

/-- Exit behaviour of each git subprocess `fetch_repo` may run: `true`
means exit code zero. -/
structure GitWorld where
  isdir : Bool
  cloneExit : Int
  resetHeadOk : Bool
  remoteAddOk : Bool
  fetchOk : Bool
  branchListOk : Bool
  branchListNonempty : Bool
  checkoutBaseOk : Bool
  checkoutTrackOk : Bool
  checkoutNewBaseOk : Bool
  resetUpstreamOk : Bool
  checkoutBranchOk : Bool
  checkoutNewBranchOk : Bool

/-- A git command run with `check=True`: a non-zero exit raises
`CalledProcessError`. -/
def runGit (ok : Bool) : Except Unit Unit :=
  if ok then .ok () else .error ()

/-- The body of `fetch_repo` after the clone decision: reset when reusing
a clone, register the upstream remote (failure swallowed), fetch, resolve
the base branch with its fallbacks, hard-reset to upstream, and check out
the target branch (creating it from base when absent). -/
def fetchRepoBody (w : GitWorld) (reset_hard : Bool) : Except Unit Bool := do
  if reset_hard then runGit w.resetHeadOk
  let _swallowed := w.remoteAddOk
  runGit w.fetchOk
  runGit w.branchListOk
  if w.branchListNonempty then runGit w.checkoutBaseOk
  else if w.checkoutTrackOk then pure ()
  else runGit w.checkoutNewBaseOk
  runGit w.resetUpstreamOk
  if w.checkoutBranchOk then pure ()
  else runGit w.checkoutNewBranchOk
  pure true

/-- `fetch_repo(feedstock_dir, origin, upstream, branch, base_branch)`:
clone when the directory is missing, returning `False` on a failed clone;
otherwise reconcile the existing clone and return `True`. -/
def fetch_repo (w : GitWorld) : Except Unit Bool :=
  if !w.isdir then
    if w.cloneExit != 0 then .ok false
    else fetchRepoBody w false
  else fetchRepoBody w true

/-- Split a character list at its last slash, as Python
`rsplit("/", 1)` does; `none` when no slash occurs. -/
def splitLastSlash : List Char → Option (List Char × List Char)
  | [] => none
  | c :: rest =>
    match splitLastSlash rest with
    | some (a, b) => some (c :: a, b)
    | none => if c == '/' then some ([], rest) else none

/-- `fork_url(feedstock_url, username)`: split at the last slash, chop the
11-character `conda-forge` segment off the front part (`beg[:-11]`),
splice the username in.  A URL with no slash raises (`rsplit`
unpacking). -/
def fork_url (feedstock_url : String) (username : String) : Except Unit String :=
  match splitLastSlash feedstock_url.data with
  | none => .error ()
  | some (beg, tail) =>
    .ok (String.mk ((beg.take (beg.length - 11)) ++ username.data ++ ['/'] ++ tail))

/-- Whether an effect closes a pull request. -/
def Effect.isClose : Effect → Bool
  | .closePr => true
  | _ => false

/-- Whether an effect is the branch-deleting push. -/
def Effect.isBranchDelete : Effect → Bool
  | .deleteBranchPush _ => true
  | _ => false

/-- Observe the `ETag` string of a record, when present. -/
def etagOf (r : Record) : Option String :=
  match rfind r "ETag" with
  | some (.s t) => some t
  | _ => none

/-- A successful `lazy_update_pr_json` performs exactly one GET. -/
theorem lazy_update_shape (resp : GhResp) (pr0 : Record) (force : Bool)
    (q : Record) (e : List Effect) (h : lazy_update_pr_json resp pr0 force = .ok (q, e)) :
    ∃ a b c, e = [Effect.httpGetPr a b c] := by
  unfold lazy_update_pr_json at h
  split at h
  · exact Except.noConfusion h
  · cases h
    exact ⟨_, _, _, rfl⟩

/-- A successful non-dry `delete_branch` performs exactly one deleting
push. -/
theorem delete_branch_shape (pr : Record) (q : Record) (e : List Effect)
    (h : delete_branch pr false = .ok (q, e)) : ∃ ref, e = [Effect.deleteBranchPush ref] := by
  unfold delete_branch at h
  cases h1 : getItem (JVal.obj pr) "head" with
  | error er => simp only [h1] at h; exact Except.noConfusion h
  | ok headVal =>
    simp only [h1] at h
    cases h2 : getItem headVal "ref" with
    | error er => simp only [h2] at h; exact Except.noConfusion h
    | ok ref =>
      simp only [h2, Bool.false_eq_true, if_false] at h
      cases h3 : getItem (JVal.obj pr) "base" with
      | error er => simp only [h3] at h; exact Except.noConfusion h
      | ok baseVal =>
        simp only [h3] at h
        cases h4 : getItem baseVal "repo" with
        | error er => simp only [h4] at h; exact Except.noConfusion h
        | ok repoVal =>
          simp only [h4] at h
          cases h5 : getItem repoVal "name" with
          | error er => simp only [h5] at h; exact Except.noConfusion h
          | ok nmv =>
            simp only [h5] at h
            cases h6 : rsetPath pr ["head", "ref"] (JVal.s "this_is_not_a_branch") with
            | error er => simp only [h6] at h; exact Except.noConfusion h
            | ok pr2 =>
              simp only [h6, Except.ok.injEq, Prod.mk.injEq] at h
              exact ⟨ref, h.2.symm⟩

/-- C1: trim_pr_json_keys is idempotent — whenever one application of the
trim succeeds with output T, applying the trim to T succeeds and returns T
unchanged. -/
theorem c1_trim_idempotent (R T : Record) (h : trim_pr_json_keys R none = .ok T) :
    trim_pr_json_keys T none = .ok T :=
  mungeForest_idem PR_KEYS_TO_KEEP (JVal.obj R) T ksNodup_PR_KEYS_TO_KEEP h

/-- A record with keys inside and outside the canonical subset. -/
def R0c : Record := [("state", JVal.s "open"), ("junk", JVal.null),
  ("head", JVal.obj [("ref", JVal.s "b"), ("x", JVal.n 1)])]

/-- The trim of `R0c`. -/
def T0c : Record := [("state", JVal.s "open"), ("head", JVal.obj [("ref", JVal.s "b")])]

theorem c1_trim_idempotent_witness :
    trim_pr_json_keys R0c none = .ok T0c ∧ trim_pr_json_keys T0c none = .ok T0c :=
  ⟨rfl, c1_trim_idempotent R0c T0c rfl⟩

/-- A cached record that is closed with a null merged_at. -/
def cclosed : Record :=
  [("id", JVal.n 1), ("state", JVal.s "closed"), ("merged_at", JVal.null)]

/-- The trim of `cclosed`. -/
def cclosedTrim : Record :=
  [("id", JVal.n 1), ("merged_at", JVal.null), ("state", JVal.s "closed")]

/-- An arbitrary GitHub response (never consulted on the closed path). -/
def cresp2 : GhResp := ⟨200, [], "E2", "M2"⟩

/-- C2 counterexample: on a closed record with null merged_at, refresh_pr
returns none with zero network calls — it does not return the (re-trimmed)
record, as the claim states. -/
theorem c2_counterexample :
    refresh_pr cresp2 cclosed false = .ok (none, cclosed, [])
    ∧ trim_pr_json_keys cclosed none = .ok cclosedTrim
    ∧ (none : Option Record) ≠ some cclosedTrim :=
  ⟨rfl, rfl, fun h => Option.noConfusion h⟩

/-- C2 (amended): for every record whose state is "closed" (in particular
with merged_at null), refresh_pr issues zero network calls, leaves the
record untouched (no re-trim), and returns none. -/
theorem c2_refresh_closed_noop (resp : GhResp) (pr : Record) (dry : Bool)
    (h1 : getItem (JVal.obj pr) "state" = .ok (JVal.s "closed"))
    (_h2 : rfind pr "merged_at" = some JVal.null) :
    refresh_pr resp pr dry = .ok (none, pr, []) := by
  unfold refresh_pr
  rw [h1]
  simp [jEqStr]

theorem c2_refresh_closed_noop_witness :
    getItem (JVal.obj cclosed) "state" = .ok (JVal.s "closed")
    ∧ rfind cclosed "merged_at" = some JVal.null
    ∧ refresh_pr cresp2 cclosed false = .ok (none, cclosed, []) :=
  ⟨rfl, rfl, c2_refresh_closed_noop cresp2 cclosed false rfl rfl⟩

/-- C7: every record produced by trim_pr_json_keys (from any input and any
optional source) holds only keys of the canonical subset, including the
nested head.ref and base.repo.name shapes. -/
theorem c7_trim_key_subset (pr : Record) (src : Option Record) (d : Record)
    (h : trim_pr_json_keys pr src = .ok d) :
    (d.all fun p => keyOk PR_KEYS_TO_KEEP p) = true :=
  mungeForest_keyOk PR_KEYS_TO_KEEP (JVal.obj (src.getD pr)) d h

/-- A record to be trimmed against an explicit source. -/
def pr7 : Record := [("zzz", JVal.b true), ("state", JVal.s "open")]

/-- A source record with junk keys at every nesting level. -/
def pr7src : Record := [("state", JVal.s "closed"), ("junk", JVal.n 9),
  ("base", JVal.obj [("repo", JVal.obj [("name", JVal.s "x"), ("junk2", JVal.n 5)]),
                     ("extra", JVal.null)])]

/-- The trim of `pr7` against `pr7src`. -/
def d7 : Record := [("state", JVal.s "closed"),
  ("base", JVal.obj [("repo", JVal.obj [("name", JVal.s "x")])])]

theorem c7_trim_key_subset_witness :
    trim_pr_json_keys pr7 (some pr7src) = .ok d7
    ∧ (d7.all fun p => keyOk PR_KEYS_TO_KEEP p) = true :=
  ⟨rfl, c7_trim_key_subset pr7 (some pr7src) d7 rfl⟩

/-- C8: when the feedstock directory does not exist and the clone
subprocess exits non-zero, fetch_repo returns False and raises nothing. -/
theorem c8_fetch_repo_clone_failure (w : GitWorld) (h1 : w.isdir = false)
    (h2 : w.cloneExit ≠ 0) : fetch_repo w = .ok false := by
  unfold fetch_repo
  rw [h1]
  simp [bne_iff_ne, h2]

/-- A world with a missing directory and a failing clone. -/
def w8 : GitWorld := ⟨false, 1, true, true, true, true, true, true, true, true, true, true, true⟩

theorem c8_fetch_repo_clone_failure_witness :
    w8.isdir = false ∧ w8.cloneExit ≠ 0 ∧ fetch_repo w8 = .ok false :=
  ⟨rfl, by decide, c8_fetch_repo_clone_failure w8 rfl (by decide)⟩

/-- C9: dry-run push_repo performs no remote-add, push or PR-creation
call, raises nothing, and deterministically returns False (the documented
no-op result); its only outward call is the login read. -/
theorem c9_push_repo_dry_run (w : PushWorld) :
    push_repo w true = .ok (PushResult.failed, [Effect.ghLogin])
    ∧ (([Effect.ghLogin] : List Effect).all fun x => !x.isMutating) = true :=
  ⟨rfl, rfl⟩

/-- C10: fork_url replaces the conda-forge organization segment by the
username, preserving protocol prefix and repository name. -/
theorem c10_fork_url_example :
    fork_url "git@github.com:conda-forge/foo-feedstock.git" "alice"
      = .ok "git@github.com:alice/foo-feedstock.git" := by
  rfl

/-- C3: the stale-rerun rule on an open PR labeled bot-rerun (whose
refresh confirms it open and labeled): it refreshes once, comments,
closes, deletes the branch, refreshes again, and returns the final closed
record; run again on that record it returns none. -/
theorem c3_close_out_labels_stale_rerun
    (r1 r2 : GhResp) (pr0 pr1 pr2 pr3 : Record) (e1 e2 e3 : List Effect) (nm num : JVal)
    (h0 : stale_cond pr0 = .ok true)
    (h1 : lazy_update_pr_json r1 pr0 false = .ok (pr1, e1))
    (h2 : stale_cond pr1 = .ok true)
    (h3 : get_pr_obj_from_pr_json pr1 = .ok (nm, num, [Effect.fetchPrObj]))
    (h4 : delete_branch pr1 false = .ok (pr2, e2))
    (h5 : lazy_update_pr_json r2 pr2 false = .ok (pr3, e3))
    (h6 : getItem (JVal.obj pr3) "state" = .ok (JVal.s "closed")) :
    close_out_labels r1 r2 pr0 false =
      .ok (some pr3, e1 ++ [Effect.fetchPrObj] ++ [Effect.createComment, Effect.closePr]
        ++ e2 ++ e3)
    ∧ (e2.any Effect.isBranchDelete) = true
    ∧ close_out_labels r1 r2 pr3 false = .ok (none, []) := by
  refine ⟨?_, ?_, ?_⟩
  · unfold close_out_labels
    simp [h0, h1, h2, h3, h4, h5]
  · obtain ⟨ref, he⟩ := delete_branch_shape pr1 pr2 e2 h4
    subst he
    rfl
  · have hs : stale_cond pr3 = .ok false := by
      unfold stale_cond
      rw [h6]
      simp [jEqStr]
    unfold close_out_labels
    simp [hs]

/-- The initial open, bot-rerun-labeled record. -/
def pr3c : Record := [("id", JVal.n 11), ("number", JVal.n 7),
  ("html_url", JVal.s "https://github.com/conda-forge/foo-feedstock/pull/7"),
  ("state", JVal.s "open"),
  ("labels", JVal.arr [JVal.obj [("name", JVal.s "bot-rerun")]]),
  ("head", JVal.obj [("ref", JVal.s "rerun-branch")]),
  ("base", JVal.obj [("repo", JVal.obj [("name", JVal.s "foo-feedstock")])])]

/-- The first refresh response: still open, still labeled. -/
def r3a : GhResp := ⟨200,
  [("id", JVal.n 11), ("number", JVal.n 7),
   ("html_url", JVal.s "https://github.com/conda-forge/foo-feedstock/pull/7"),
   ("state", JVal.s "open"),
   ("labels", JVal.arr [JVal.obj [("name", JVal.s "bot-rerun")]]),
   ("head", JVal.obj [("ref", JVal.s "rerun-branch")]),
   ("base", JVal.obj [("repo", JVal.obj [("name", JVal.s "foo-feedstock")])])],
  "W1", "M1"⟩

/-- The second refresh response: now closed. -/
def r3b : GhResp := ⟨200,
  [("id", JVal.n 11), ("number", JVal.n 7),
   ("html_url", JVal.s "https://github.com/conda-forge/foo-feedstock/pull/7"),
   ("state", JVal.s "closed"),
   ("labels", JVal.arr [JVal.obj [("name", JVal.s "bot-rerun")]]),
   ("head", JVal.obj [("ref", JVal.s "rerun-branch")]),
   ("base", JVal.obj [("repo", JVal.obj [("name", JVal.s "foo-feedstock")])])],
  "W2", "M2"⟩

/-- The record after the first refresh. -/
def cpr1 : Record := [("id", JVal.n 11),
  ("number", JVal.n 7),
  ("html_url", JVal.s "https://github.com/conda-forge/foo-feedstock/pull/7"),
  ("state", JVal.s "open"),
  ("labels", JVal.arr [JVal.obj [("name", JVal.s "bot-rerun")]]),
  ("head", JVal.obj [("ref", JVal.s "rerun-branch")]),
  ("base", JVal.obj [("repo", JVal.obj [("name", JVal.s "foo-feedstock")])]),
  ("ETag", JVal.s "W1"),
  ("Last-Modified", JVal.s "M1")]

/-- The record after the branch deletion (sentinel ref). -/
def cpr2 : Record := [("id", JVal.n 11),
  ("number", JVal.n 7),
  ("html_url", JVal.s "https://github.com/conda-forge/foo-feedstock/pull/7"),
  ("state", JVal.s "open"),
  ("labels", JVal.arr [JVal.obj [("name", JVal.s "bot-rerun")]]),
  ("head", JVal.obj [("ref", JVal.s "this_is_not_a_branch")]),
  ("base", JVal.obj [("repo", JVal.obj [("name", JVal.s "foo-feedstock")])]),
  ("ETag", JVal.s "W1"),
  ("Last-Modified", JVal.s "M1")]

/-- The final closed record after the second refresh. -/
def cpr3 : Record := [("id", JVal.n 11),
  ("number", JVal.n 7),
  ("html_url", JVal.s "https://github.com/conda-forge/foo-feedstock/pull/7"),
  ("state", JVal.s "closed"),
  ("labels", JVal.arr [JVal.obj [("name", JVal.s "bot-rerun")]]),
  ("head", JVal.obj [("ref", JVal.s "rerun-branch")]),
  ("base", JVal.obj [("repo", JVal.obj [("name", JVal.s "foo-feedstock")])]),
  ("ETag", JVal.s "W2"),
  ("Last-Modified", JVal.s "M2")]

theorem c3_close_out_labels_stale_rerun_witness :
    stale_cond pr3c = .ok true
    ∧ lazy_update_pr_json r3a pr3c false
        = .ok (cpr1, [Effect.httpGetPr (JVal.s "foo-feedstock") (JVal.n 7) false])
    ∧ stale_cond cpr1 = .ok true
    ∧ delete_branch cpr1 false = .ok (cpr2, [Effect.deleteBranchPush (JVal.s "rerun-branch")])
    ∧ lazy_update_pr_json r3b cpr2 false
        = .ok (cpr3, [Effect.httpGetPr (JVal.s "foo-feedstock") (JVal.n 7) true])
    ∧ getItem (JVal.obj cpr3) "state" = .ok (JVal.s "closed")
    ∧ (close_out_labels r3a r3b pr3c false =
        .ok (some cpr3, [Effect.httpGetPr (JVal.s "foo-feedstock") (JVal.n 7) false]
          ++ [Effect.fetchPrObj] ++ [Effect.createComment, Effect.closePr]
          ++ [Effect.deleteBranchPush (JVal.s "rerun-branch")]
          ++ [Effect.httpGetPr (JVal.s "foo-feedstock") (JVal.n 7) true])
      ∧ ([Effect.deleteBranchPush (JVal.s "rerun-branch")].any Effect.isBranchDelete) = true
      ∧ close_out_labels r3a r3b cpr3 false = .ok (none, [])) :=
  ⟨rfl, rfl, rfl, rfl, rfl, rfl,
   c3_close_out_labels_stale_rerun r3a r3b pr3c cpr1 cpr2 cpr3
     [Effect.httpGetPr (JVal.s "foo-feedstock") (JVal.n 7) false]
     [Effect.deleteBranchPush (JVal.s "rerun-branch")]
     [Effect.httpGetPr (JVal.s "foo-feedstock") (JVal.n 7) true]
     (JVal.s "foo-feedstock") (JVal.n 7) rfl rfl rfl rfl rfl rfl rfl⟩

/-- C4 (amended): the dirty-conflict rule on an open, non-draft, dirty PR
with a non-bot commit author performs no mutation (no comment, close or
branch deletion) but returns the refreshed record, not none. -/
theorem c4_close_out_dirty_nonbot
    (r1 r2 : GhResp) (authors : List String) (pr0 pr1 : Record) (e1 : List Effect)
    (nm num : JVal)
    (h0 : dirty_cond1 pr0 = .ok true)
    (h1 : lazy_update_pr_json r1 pr0 false = .ok (pr1, e1))
    (h2 : dirty_cond2 pr1 = .ok true)
    (h3 : get_pr_obj_from_pr_json pr1 = .ok (nm, num, [Effect.fetchPrObj]))
    (h4 : all_bot_authors authors = false) :
    close_out_dirty_prs r1 r2 authors pr0 false =
      .ok (some pr1, e1 ++ [Effect.fetchPrObj] ++ [Effect.listCommits])
    ∧ ((e1 ++ [Effect.fetchPrObj] ++ [Effect.listCommits]).all fun x => !x.isMutating) = true := by
  constructor
  · unfold close_out_dirty_prs
    simp [h0, h1, h2, h3, h4]
  · obtain ⟨a, b, c, he⟩ := lazy_update_shape r1 pr0 false pr1 e1 h1
    subst he
    rfl

/-- The open, dirty, non-draft record of the dirty-conflict rule. -/
def pr4c : Record := [("id", JVal.n 21), ("number", JVal.n 9),
  ("html_url", JVal.s "https://github.com/conda-forge/bar-feedstock/pull/9"),
  ("state", JVal.s "open"), ("mergeable_state", JVal.s "dirty"),
  ("labels", JVal.arr []), ("draft", JVal.b false),
  ("head", JVal.obj [("ref", JVal.s "bot-branch")]),
  ("base", JVal.obj [("repo", JVal.obj [("name", JVal.s "bar-feedstock")])])]

/-- The first refresh response of the dirty rule: unchanged. -/
def r4a : GhResp := ⟨200, pr4c, "X1", "N1"⟩

/-- The second refresh response of the dirty rule: closed. -/
def r4b : GhResp := ⟨200,
  [("id", JVal.n 21), ("number", JVal.n 9),
   ("html_url", JVal.s "https://github.com/conda-forge/bar-feedstock/pull/9"),
   ("state", JVal.s "closed"), ("mergeable_state", JVal.s "dirty"),
   ("labels", JVal.arr []), ("draft", JVal.b false),
   ("head", JVal.obj [("ref", JVal.s "bot-branch")]),
   ("base", JVal.obj [("repo", JVal.obj [("name", JVal.s "bar-feedstock")])])],
  "X2", "N2"⟩

/-- The dirty record after its first refresh. -/
def cpr41 : Record := [("id", JVal.n 21),
  ("number", JVal.n 9),
  ("html_url", JVal.s "https://github.com/conda-forge/bar-feedstock/pull/9"),
  ("state", JVal.s "open"),
  ("mergeable_state", JVal.s "dirty"),
  ("labels", JVal.arr []),
  ("draft", JVal.b false),
  ("head", JVal.obj [("ref", JVal.s "bot-branch")]),
  ("base", JVal.obj [("repo", JVal.obj [("name", JVal.s "bar-feedstock")])]),
  ("ETag", JVal.s "X1"),
  ("Last-Modified", JVal.s "N1")]

/-- The effect trace of the non-bot dirty run. -/
def ceff4 : List Effect := [Effect.httpGetPr (JVal.s "bar-feedstock") (JVal.n 9) false,
  Effect.fetchPrObj, Effect.listCommits]

/-- C4 counterexample: with a non-bot author the rule leaves the PR open
but returns the refreshed record, not none as the claim states. -/
theorem c4_counterexample :
    close_out_dirty_prs r4a r4b ["alice"] pr4c false = .ok (some cpr41, ceff4)
    ∧ some cpr41 ≠ (none : Option Record) :=
  ⟨rfl, fun h => Option.noConfusion h⟩

theorem c4_close_out_dirty_nonbot_witness :
    dirty_cond1 pr4c = .ok true
    ∧ lazy_update_pr_json r4a pr4c false
        = .ok (cpr41, [Effect.httpGetPr (JVal.s "bar-feedstock") (JVal.n 9) false])
    ∧ dirty_cond2 cpr41 = .ok true
    ∧ all_bot_authors ["alice"] = false
    ∧ (close_out_dirty_prs r4a r4b ["alice"] pr4c false =
        .ok (some cpr41, [Effect.httpGetPr (JVal.s "bar-feedstock") (JVal.n 9) false]
          ++ [Effect.fetchPrObj] ++ [Effect.listCommits])
      ∧ (([Effect.httpGetPr (JVal.s "bar-feedstock") (JVal.n 9) false]
          ++ [Effect.fetchPrObj] ++ [Effect.listCommits]).all fun x => !x.isMutating) = true) :=
  ⟨rfl, rfl, rfl, rfl,
   c4_close_out_dirty_nonbot r4a r4b ["alice"] pr4c cpr41
     [Effect.httpGetPr (JVal.s "bar-feedstock") (JVal.n 9) false]
     (JVal.s "bar-feedstock") (JVal.n 9) rfl rfl rfl rfl rfl⟩

/-- C5: the dirty-conflict rule on an open, non-draft, dirty PR whose
commits are all bot-authored closes the PR and appends the bot-rerun label
entry to the label list of the returned record only; no add-label call is
made against the remote resource. -/
theorem c5_close_out_dirty_allbot
    (r1 r2 : GhResp) (authors : List String) (pr0 pr1 pr2 pr3 : Record)
    (e1 e2 e3 : List Effect) (nm num : JVal) (ls : List JVal)
    (h0 : dirty_cond1 pr0 = .ok true)
    (h1 : lazy_update_pr_json r1 pr0 false = .ok (pr1, e1))
    (h2 : dirty_cond2 pr1 = .ok true)
    (h3 : get_pr_obj_from_pr_json pr1 = .ok (nm, num, [Effect.fetchPrObj]))
    (hB : all_bot_authors authors = true)
    (h4 : delete_branch pr1 false = .ok (pr2, e2))
    (h5 : lazy_update_pr_json r2 pr2 false = .ok (pr3, e3))
    (h6 : getItem (JVal.obj pr3) "labels" = .ok (JVal.arr ls)) :
    close_out_dirty_prs r1 r2 authors pr0 false =
      .ok (some (rset pr3 "labels" (JVal.arr (ls ++ [JVal.obj BOT_RERUN_LABEL]))),
           e1 ++ [Effect.fetchPrObj] ++ [Effect.listCommits, Effect.createComment, Effect.closePr]
             ++ e2 ++ e3)
    ∧ ((e1 ++ [Effect.fetchPrObj] ++ [Effect.listCommits, Effect.createComment, Effect.closePr]
        ++ e2 ++ e3).all fun x => !x.isAddLabel) = true
    ∧ ((e1 ++ [Effect.fetchPrObj] ++ [Effect.listCommits, Effect.createComment, Effect.closePr]
        ++ e2 ++ e3).any Effect.isClose) = true := by
  refine ⟨?_, ?_, ?_⟩
  · unfold close_out_dirty_prs
    simp [h0, h1, h2, h3, hB, h4, h5, h6]
  · obtain ⟨a, b, c, he1⟩ := lazy_update_shape r1 pr0 false pr1 e1 h1
    obtain ⟨rf, he2⟩ := delete_branch_shape pr1 pr2 e2 h4
    obtain ⟨a2, b2, c2, he3⟩ := lazy_update_shape r2 pr2 false pr3 e3 h5
    subst he1 he2 he3
    rfl
  · simp [Effect.isClose]

/-- The record after the all-bot dirty branch deletion. -/
def cpr42 : Record := [("id", JVal.n 21),
  ("number", JVal.n 9),
  ("html_url", JVal.s "https://github.com/conda-forge/bar-feedstock/pull/9"),
  ("state", JVal.s "open"),
  ("mergeable_state", JVal.s "dirty"),
  ("labels", JVal.arr []),
  ("draft", JVal.b false),
  ("head", JVal.obj [("ref", JVal.s "this_is_not_a_branch")]),
  ("base", JVal.obj [("repo", JVal.obj [("name", JVal.s "bar-feedstock")])]),
  ("ETag", JVal.s "X1"),
  ("Last-Modified", JVal.s "N1")]

/-- The record after the second refresh of the all-bot dirty run. -/
def cpr43 : Record := [("id", JVal.n 21),
  ("number", JVal.n 9),
  ("html_url", JVal.s "https://github.com/conda-forge/bar-feedstock/pull/9"),
  ("state", JVal.s "closed"),
  ("mergeable_state", JVal.s "dirty"),
  ("labels", JVal.arr []),
  ("draft", JVal.b false),
  ("head", JVal.obj [("ref", JVal.s "bot-branch")]),
  ("base", JVal.obj [("repo", JVal.obj [("name", JVal.s "bar-feedstock")])]),
  ("ETag", JVal.s "X2"),
  ("Last-Modified", JVal.s "N2")]

theorem c5_close_out_dirty_allbot_witness :
    dirty_cond1 pr4c = .ok true
    ∧ all_bot_authors ["regro-cf-autotick-bot"] = true
    ∧ delete_branch cpr41 false
        = .ok (cpr42, [Effect.deleteBranchPush (JVal.s "bot-branch")])
    ∧ lazy_update_pr_json r4b cpr42 false
        = .ok (cpr43, [Effect.httpGetPr (JVal.s "bar-feedstock") (JVal.n 9) true])
    ∧ getItem (JVal.obj cpr43) "labels" = .ok (JVal.arr [])
    ∧ (close_out_dirty_prs r4a r4b ["regro-cf-autotick-bot"] pr4c false =
        .ok (some (rset cpr43 "labels" (JVal.arr ([] ++ [JVal.obj BOT_RERUN_LABEL]))),
          [Effect.httpGetPr (JVal.s "bar-feedstock") (JVal.n 9) false]
            ++ [Effect.fetchPrObj]
            ++ [Effect.listCommits, Effect.createComment, Effect.closePr]
            ++ [Effect.deleteBranchPush (JVal.s "bot-branch")]
            ++ [Effect.httpGetPr (JVal.s "bar-feedstock") (JVal.n 9) true])
      ∧ (([Effect.httpGetPr (JVal.s "bar-feedstock") (JVal.n 9) false]
            ++ [Effect.fetchPrObj]
            ++ [Effect.listCommits, Effect.createComment, Effect.closePr]
            ++ [Effect.deleteBranchPush (JVal.s "bot-branch")]
            ++ [Effect.httpGetPr (JVal.s "bar-feedstock") (JVal.n 9) true]).all
          fun x => !x.isAddLabel) = true
      ∧ (([Effect.httpGetPr (JVal.s "bar-feedstock") (JVal.n 9) false]
            ++ [Effect.fetchPrObj]
            ++ [Effect.listCommits, Effect.createComment, Effect.closePr]
            ++ [Effect.deleteBranchPush (JVal.s "bot-branch")]
            ++ [Effect.httpGetPr (JVal.s "bar-feedstock") (JVal.n 9) true]).any
          Effect.isClose) = true) :=
  ⟨rfl, rfl, rfl, rfl, rfl,
   c5_close_out_dirty_allbot r4a r4b ["regro-cf-autotick-bot"] pr4c cpr41 cpr42 cpr43
     [Effect.httpGetPr (JVal.s "bar-feedstock") (JVal.n 9) false]
     [Effect.deleteBranchPush (JVal.s "bot-branch")]
     [Effect.httpGetPr (JVal.s "bar-feedstock") (JVal.n 9) true]
     (JVal.s "bar-feedstock") (JVal.n 9) []
     rfl rfl rfl rfl rfl rfl rfl rfl⟩

/-- An open record refresh_pr is called on. -/
def cpr6 : Record := [("number", JVal.n 3),
  ("html_url", JVal.s "https://github.com/conda-forge/baz-feedstock/pull/3"),
  ("state", JVal.s "open"),
  ("head", JVal.obj [("ref", JVal.s "hh")]),
  ("base", JVal.obj [("repo", JVal.obj [("name", JVal.s "baz-feedstock")])])]

/-- A fresh 200 response whose body differs from the cached record. -/
def cresp6 : GhResp := ⟨200,
  [("number", JVal.n 3), ("state", JVal.s "open"),
   ("mergeable_state", JVal.s "clean"), ("merged_at", JVal.null),
   ("head", JVal.obj [("ref", JVal.s "hh")]),
   ("base", JVal.obj [("repo", JVal.obj [("name", JVal.s "baz-feedstock")])])],
  "E6", "M6"⟩

/-- The trimmed refreshed state the call returns. -/
def cd6 : Record := [("number", JVal.n 3),
  ("merged_at", JVal.null),
  ("state", JVal.s "open"),
  ("mergeable_state", JVal.s "clean"),
  ("head", JVal.obj [("ref", JVal.s "hh")]),
  ("base", JVal.obj [("repo", JVal.obj [("name", JVal.s "baz-feedstock")])]),
  ("ETag", JVal.s "E6"),
  ("Last-Modified", JVal.s "M6")]

/-- C6 counterexample: refresh_pr refreshes a deep copy — afterwards the
passed record still holds its old value, which differs from the returned
trimmed remote state, so the refreshed state was not written back. -/
theorem c6_counterexample :
    refresh_pr cresp6 cpr6 false =
      .ok (some cd6, cpr6, [Effect.httpGetPr (JVal.s "baz-feedstock") (JVal.n 3) false])
    ∧ cd6 ≠ cpr6 :=
  ⟨rfl, fun h => absurd (congrArg etagOf h) (by decide)⟩

/-- C6 (amended): for a non-closed record, refresh_pr returns the trimmed
refreshed state as a new dict while the record object passed in keeps its
old value (the refresh runs on a deep copy and is never written back). -/
theorem c6_refresh_returns_copy
    (resp : GhResp) (pr pr2 : Record) (st st2 : JVal) (e : List Effect)
    (h1 : getItem (JVal.obj pr) "state" = .ok st)
    (h2 : jEqStr st "closed" = false)
    (h3 : lazy_update_pr_json resp pr false = .ok (pr2, e))
    (h4 : getItem (JVal.obj pr2) "state" = .ok st2)
    (h5 : (jEqStr st2 "closed" && jTruthy ((rfind pr2 "merged_at").getD (JVal.b false)))
      = false) :
    refresh_pr resp pr false = .ok (some pr2, pr, e) := by
  unfold refresh_pr
  simp [h1, h2, h3, h4, h5]

theorem c6_refresh_returns_copy_witness :
    getItem (JVal.obj cpr6) "state" = .ok (JVal.s "open")
    ∧ jEqStr (JVal.s "open") "closed" = false
    ∧ lazy_update_pr_json cresp6 cpr6 false
        = .ok (cd6, [Effect.httpGetPr (JVal.s "baz-feedstock") (JVal.n 3) false])
    ∧ refresh_pr cresp6 cpr6 false =
        .ok (some cd6, cpr6, [Effect.httpGetPr (JVal.s "baz-feedstock") (JVal.n 3) false]) :=
  ⟨rfl, rfl, rfl,
   c6_refresh_returns_copy cresp6 cpr6 cd6 (JVal.s "open") (JVal.s "open")
     [Effect.httpGetPr (JVal.s "baz-feedstock") (JVal.n 3) false]
     rfl rfl rfl rfl rfl⟩
